import Mathlib

/-!
Verification of the remote directory synchronizer
(`remote_file_replicator.py`): a shallow embedding of the source- and
target-side replication logic, together with theorems settling the
specification's claims about it.

Paths are slash-separated strings as in the Python code (which uses
`posixpath` string manipulation); directory trees are modelled as
name-keyed association trees, mirroring the nested `dict` snapshots the
target produces.
-/

namespace Replicator

/-- Request message sent from the source to the target
(`remote_file_replicator.py`, dataclass `Request`). -/
structure Request where
  command : String
  path : String
  data : Option String
deriving DecidableEq, Repr

mutual
/-- Modelled from the spec: the filesystem capability of §6 exposes a
directory tree whose entries are files (with full content) or nested
directories; `file_system.py` itself is not part of this repository's
sources. A node is a file's content or a directory's entry list. -/
inductive FSNode where
  | file (content : String)
  | dir (entries : FSEntries)

/-- Modelled from the spec: ordered association list of name/node entries of
a directory, as returned by `listdir` (an ordered sequence of names). -/
inductive FSEntries where
  | nil
  | cons (name : String) (node : FSNode) (rest : FSEntries)
end

/-- Reply message sent from the target back to the source
(`remote_file_replicator.py`, dataclass `Response`). -/
structure Response where
  status : String
  message : Option String
  data : Option FSNode

/-- Characters of the pieces obtained by splitting a character list at a
separator character (the splitting underlying `posixpath` path handling). -/
def splitCharsOn (c : Char) : List Char → List (List Char)
  | [] => [[]]
  | a :: rest =>
    match splitCharsOn c rest with
    | [] => [[]]
    | seg :: segs => if a = c then [] :: seg :: segs else (a :: seg) :: segs

/-- Path segments of a slash-separated path, with empty segments dropped
(the effect of `posixpath` normalization on well-formed paths). -/
def splitPath (s : String) : List String :=
  ((splitCharsOn '/' s.data).map (fun l => String.mk l)).filter (fun seg => decide (seg ≠ ""))

/-- Join path segments with slashes. -/
def joinPath : List String → String
  | [] => ""
  | [a] => a
  | a :: rest => a ++ "/" ++ joinPath rest

/-- A path is absolute when it starts with a slash (`posixpath` convention). -/
def isAbsolute (s : String) : Bool :=
  match s.data with
  | [] => false
  | c :: _ => c = '/'

/-- Whether a string ends with a slash. -/
def endsWithSlash (s : String) : Bool :=
  match s.data.getLast? with
  | some c => c = '/'
  | none => false

/-- Embedding of `posixpath.join` on two components. -/
def pjoin (a b : String) : String :=
  if isAbsolute b then b
  else if a = "" || endsWithSlash a then a ++ b
  else a ++ "/" ++ b

/-- Length of the common segment-list prefix of two paths. -/
def commonLen : List String → List String → Nat
  | a :: as, b :: bs => if a = b then commonLen as bs + 1 else 0
  | _, _ => 0

/-- Segments of the relative path from `start` to `path`: after dropping
the common prefix, climb with `..` for what remains of `start`, then
descend with what remains of `path`. -/
def relSegs (path start : String) : List String :=
  List.replicate
      ((splitPath start).length - commonLen (splitPath path) (splitPath start)) ".." ++
    (splitPath path).drop (commonLen (splitPath path) (splitPath start))

/-- Embedding of `posixpath.relpath path start` for the already-normalized
paths the replicator works with: join the relative segments, or `.` when
there are none. -/
def relpath (path start : String) : String :=
  match relSegs path start with
  | [] => "."
  | segs => joinPath segs

/-- Embedding of Python `str.startswith`: literal string-prefix test. -/
def strStartsWith (s p : String) : Bool := p.data.isPrefixOf s.data

/-- Whether the first character list occurs contiguously inside the second. -/
def charsInfix (sub : List Char) : List Char → Bool
  | [] => sub.isPrefixOf []
  | a :: rest => sub.isPrefixOf (a :: rest) || charsInfix sub rest

/-- Embedding of Python `sub in s` on strings: literal substring test. -/
def strContains (s sub : String) : Bool := charsInfix sub.data s.data

/-- Look up a name in a directory's entry list (Python `dict` lookup; keys
are unique in dictionaries built by the code). -/
def lookupEntry : FSEntries → String → Option FSNode
  | .nil, _ => none
  | .cons k v rest, key => if k = key then some v else lookupEntry rest key

/-- Insert or replace a name's entry, keeping its position (Python `dict`
assignment). -/
def setEntry : FSEntries → String → FSNode → FSEntries
  | .nil, key, v => .cons key v .nil
  | .cons k w rest, key, v =>
    if k = key then .cons k v rest else .cons k w (setEntry rest key v)

/-- Remove a name's entry (Python `dict` / filesystem removal). -/
def removeEntry : FSEntries → String → FSEntries
  | .nil, _ => .nil
  | .cons k w rest, key => if k = key then rest else .cons k w (removeEntry rest key)

/-- Modelled from the spec: resolving a segment path in a tree gives the
node there, when it exists; underlies `exists`, `isdir` and `readfile` of
the §6 filesystem capability. -/
def resolve : FSNode → List String → Option FSNode
  | n, [] => some n
  | .file _, _ :: _ => none
  | .dir es, k :: rest =>
    match lookupEntry es k with
    | some child => resolve child rest
    | none => none

/-- Modelled from the spec: `writefile` stores content at a path, creating
missing ancestors as needed (§4.3); a file standing where a directory is
needed is replaced, a case the spec leaves unspecified and the replicator
never reaches. -/
def setNode : FSNode → List String → FSNode → FSNode
  | _, [], v => v
  | .dir es, k :: rest, v =>
    match lookupEntry es k with
    | some child => .dir (setEntry es k (setNode child rest v))
    | none => .dir (setEntry es k (setNode (.dir .nil) rest v))
  | .file _, k :: rest, v => .dir (.cons k (setNode (.dir .nil) rest v) .nil)

/-- Modelled from the spec: `removedir`/`removefile` delete the node at a
path (recursively for directories); removing a missing path or the root
itself leaves the tree unchanged (the interpreter guards with `exists`). -/
def removeNode : FSNode → List String → FSNode
  | n, [] => n
  | .dir es, [k] => .dir (removeEntry es k)
  | .dir es, k :: rest =>
    (match lookupEntry es k with
     | some child => .dir (setEntry es k (removeNode child rest))
     | none => .dir es)
  | .file c, _ :: _ => .file c

/-- Modelled from the spec: `makedirs` creates a directory and any missing
ancestors and is idempotent (§6); a file in the way blocks creation. -/
def makedirs : FSNode → List String → FSNode
  | n, [] => n
  | .dir es, k :: rest =>
    (match lookupEntry es k with
     | some child => .dir (setEntry es k (makedirs child rest))
     | none => .dir (setEntry es k (makedirs (.dir .nil) rest)))
  | .file c, _ :: _ => .file c

mutual
/-- Embedding of `ReplicatorTarget.get_dir_structure`: recursively capture a
directory as a name-to-content-or-substructure mapping. -/
def getDirStructure : FSNode → FSNode
  | .file c => .file c
  | .dir es => .dir (getDirEntries es)

/-- Entry-list part of `get_dir_structure`: one mapping entry per listed
name, nested mapping for subdirectories, full content for files. -/
def getDirEntries : FSEntries → FSEntries
  | .nil => .nil
  | .cons k v rest => .cons k (getDirStructure v) (getDirEntries rest)
end

/-- Trace of mutating filesystem calls the target interpreter makes while
handling one request (paths as passed in the request, which the code joins
under the target root). -/
inductive FsCall where
  | makedirs (path : String)
  | writefile (path : String) (content : String)
  | removedir (path : String)
  | removefile (path : String)
deriving DecidableEq, Repr

/-- Embedding of `ReplicatorTarget.handle_request`: apply one request to the
target tree, returning the new tree, the mutating filesystem calls made,
and the reply value (`None` is `none`). -/
def handleRequest (st : FSNode) (req : Request) : FSNode × List FsCall × Option Response :=
  let p := splitPath req.path
  match req.command with
  | "makedir" => (makedirs st p, [FsCall.makedirs req.path], none)
  | "writefile" =>
    (match req.data with
     | none => (st, [], none)
     | some c =>
       match resolve st p with
       | some (FSNode.dir _) =>
         (setNode (removeNode st p) p (FSNode.file c),
          [FsCall.removedir req.path, FsCall.writefile req.path c], none)
       | some (FSNode.file cur) =>
         if cur = c then (st, [], none)
         else (setNode st p (FSNode.file c), [FsCall.writefile req.path c], none)
       | none => (setNode st p (FSNode.file c), [FsCall.writefile req.path c], none))
  | "remove" =>
    (match resolve st p with
     | some (FSNode.dir _) => (removeNode st p, [FsCall.removedir req.path], none)
     | some (FSNode.file _) => (removeNode st p, [FsCall.removefile req.path], none)
     | none => (st, [], none))
  | "get_dir_structure" => (st, [], some ⟨"ok", none, some (getDirStructure st)⟩)
  | _ => (st, [], none)

/-- Default value used by Python's `dict.get(key, {})` in
`sync_target_with_source`: the nested mapping when present, else an empty
mapping; a string value there is handled by the caller before this point. -/
def dsGet (es : FSEntries) (key : String) : FSNode :=
  match lookupEntry es key with
  | some v => v
  | none => FSNode.dir FSEntries.nil

mutual
/-- Embedding of `ReplicatorSource.sync_target_with_source`: walk the source
directory at `srcDir` (node `n`) against the target snapshot `snap`,
issuing the requests the Python code sends; the Boolean is `false` when the
Python code would raise (using a string snapshot value as a `dict`, or
listing a non-directory), in which case the request list holds the requests
issued before the exception. -/
def syncTargetWithSource (root srcDir : String) (n snap : FSNode) : List Request × Bool :=
  match n with
  | .file _ => ([], false)
  | .dir es => syncItems root srcDir es snap

/-- Loop body of `sync_target_with_source` over the listed entries of the
current source directory. -/
def syncItems (root srcDir : String) (items : FSEntries) (snap : FSNode) : List Request × Bool :=
  match items with
  | .nil => ([], true)
  | .cons name child rest =>
    let rel := relpath (pjoin srcDir name) root
    match child with
    | .dir _ =>
      (match snap with
       | .file s =>
         -- membership `rel not in snap` is a substring test on a string
         -- snapshot; the subsequent `.get` on a string raises
         if strContains s rel then ([], false)
         else ([⟨"remove", rel, none⟩, ⟨"makedir", rel, none⟩], false)
       | .dir ses =>
         let pre :=
           if (lookupEntry ses rel).isSome then []
           else [(⟨"remove", rel, none⟩ : Request), ⟨"makedir", rel, none⟩]
         let inner := syncTargetWithSource root (pjoin srcDir name) child (dsGet ses rel)
         if inner.2 then
           let after := syncItems root srcDir rest snap
           (pre ++ inner.1 ++ after.1, after.2)
         else (pre ++ inner.1, false))
    | .file c =>
      (match snap with
       | .file s =>
         -- `snap[rel]` on a string snapshot raises once membership holds
         if strContains s rel then ([], false)
         else
           let after := syncItems root srcDir rest snap
           ((⟨"writefile", rel, some c⟩ : Request) :: after.1, after.2)
       | .dir ses =>
         let cmds :=
           match lookupEntry ses rel with
           | some (FSNode.file cur) =>
             if cur = c then [] else [(⟨"writefile", rel, some c⟩ : Request)]
           | _ => [(⟨"writefile", rel, some c⟩ : Request)]
         let after := syncItems root srcDir rest snap
         (cmds ++ after.1, after.2))
end

mutual
/-- Embedding of `ReplicatorSource.remove_excess_items`: walk the snapshot
`snap` of the directory at `srcDir`, issuing `remove` for entries the live
source tree `srcRoot` no longer has; the Boolean is `false` when the Python
code would raise (iterating `.items()` on a string snapshot). -/
def removeExcessItems (root srcDir : String) (srcRoot : FSNode) (snap : FSNode) : List Request × Bool :=
  match snap with
  | .file _ => ([], false)
  | .dir ses => reiItems root srcDir srcRoot ses

/-- Loop body of `remove_excess_items` over the snapshot's entries. -/
def reiItems (root srcDir : String) (srcRoot : FSNode) (items : FSEntries) : List Request × Bool :=
  match items with
  | .nil => ([], true)
  | .cons key content rest =>
    let relp := relpath (pjoin srcDir key) root
    if (resolve srcRoot (splitPath relp)).isNone then
      let after := reiItems root srcDir srcRoot rest
      ((⟨"remove", relp, none⟩ : Request) :: after.1, after.2)
    else
      (match content with
       | .dir _ =>
         let inner := removeExcessItems root (pjoin srcDir key) srcRoot content
         if inner.2 then
           let after := reiItems root srcDir srcRoot rest
           (inner.1 ++ after.1, after.2)
         else (inner.1, false)
       | .file _ => reiItems root srcDir srcRoot rest)
end

/-- Embedding of `ReplicatorSource.initialize_target`: request the target's
structure (a `get_dir_structure` request with empty path), then sync the
source onto the snapshot and remove excess snapshot entries. -/
def initializeTargetRequests (root : String) (src snap : FSNode) : List Request × Bool :=
  let s := syncTargetWithSource root root src snap
  if s.2 then
    let r := removeExcessItems root root src snap
    ((⟨"get_dir_structure", "", none⟩ : Request) :: (s.1 ++ r.1), r.2)
  else ((⟨"get_dir_structure", "", none⟩ : Request) :: s.1, false)

/-- Observable actions of the source side: watch registrations and
deregistrations, and requests sent over the channel. -/
inductive SourceEffect where
  | watchdir (path : String)
  | unwatchdir (path : String)
  | rpc (req : Request)
deriving DecidableEq, Repr

mutual
/-- Embedding of `ReplicatorSource.sync_and_watch_directories` on the
directory at absolute path `absDir` (node `n`): watch it, issue `makedir`
for every non-root directory, recurse, and issue `writefile` for files. -/
def syncAndWatchDirs (root absDir : String) (n : FSNode) : List SourceEffect :=
  SourceEffect.watchdir absDir ::
    ((if relpath absDir root = "." then []
      else [SourceEffect.rpc ⟨"makedir", relpath absDir root, none⟩]) ++
     (match n with
      | .file _ => []
      | .dir es => sawItems root absDir es))

/-- Loop body of `sync_and_watch_directories` over the listed entries. -/
def sawItems (root absDir : String) (items : FSEntries) : List SourceEffect :=
  match items with
  | .nil => []
  | .cons name child rest =>
    (match child with
     | .dir _ =>
       SourceEffect.rpc ⟨"makedir", relpath (pjoin absDir name) root, none⟩ ::
         syncAndWatchDirs root (pjoin absDir name) child
     | .file c =>
       [SourceEffect.rpc ⟨"writefile", relpath (pjoin absDir name) root, some c⟩]) ++
    sawItems root absDir rest
end

/-- Embedding of `ReplicatorSource.unwatch_prefix_directories`: unwatch and
drop every watched directory having the given literal string prefix. -/
def unwatchPrefixDirs (watched : List String) (p : String) : List String × List SourceEffect :=
  (watched.filter (fun d => !(strStartsWith d p)),
   (watched.filter (fun d => strStartsWith d p)).map SourceEffect.unwatchdir)

/-- Filesystem change-notification kinds (`file_system.FileSystemEventType`). -/
inductive FSEventType where
  | fileOrSubdirAdded
  | fileOrSubdirRemoved
  | fileModified
deriving DecidableEq, Repr

/-- Filesystem change notification (`file_system.FileSystemEvent`): a kind
and the absolute path it concerns. -/
structure FSEvent where
  eventType : FSEventType
  path : String
deriving DecidableEq, Repr

/-- Absolute paths registered by the `watchdir` effects of a trace, i.e. the
additions `sync_and_watch_directories` makes to the watched set. -/
def watchedFrom (effs : List SourceEffect) : List String :=
  effs.filterMap fun e =>
    match e with
    | SourceEffect.watchdir q => some q
    | _ => none

/-- Embedding of `ReplicatorSource.handle_event`: given the live source tree
under `root`, the watched set, and one event, produce the new watched set,
the effect trace, and `false` when the Python code would raise (reading a
path the tree does not have as a file). -/
def handleEvent (srcTree : FSNode) (root : String) (watched : List String)
    (ev : FSEvent) : List String × List SourceEffect × Bool :=
  let rel := relpath ev.path root
  match ev.eventType with
  | FSEventType.fileOrSubdirAdded =>
    (match resolve srcTree (splitPath rel) with
     | some (FSNode.dir es) =>
       let effs := syncAndWatchDirs root ev.path (FSNode.dir es)
       (watched ++ watchedFrom effs,
        effs ++ [SourceEffect.rpc ⟨"makedir", rel, none⟩], true)
     | some (FSNode.file c) =>
       (watched, [SourceEffect.rpc ⟨"writefile", rel, some c⟩], true)
     | none => (watched, [], false))
  | FSEventType.fileOrSubdirRemoved =>
    let un := unwatchPrefixDirs watched ev.path
    (un.1, un.2 ++ [SourceEffect.rpc ⟨"remove", rel, none⟩], true)
  | FSEventType.fileModified =>
    (match resolve srcTree (splitPath rel) with
     | some (FSNode.file c) =>
       (watched, [SourceEffect.rpc ⟨"writefile", rel, some c⟩], true)
     | _ => (watched, [], false))

/-- Apply a request sequence at the target interpreter, folding
`handle_request` over the states. -/
def applyRequests (st : FSNode) (rs : List Request) : FSNode :=
  rs.foldl (fun s r => (handleRequest s r).1) st

/-- Requests carried by the `rpc` effects of a trace, in order. -/
def rpcReqs (effs : List SourceEffect) : List Request :=
  effs.filterMap fun e =>
    match e with
    | SourceEffect.rpc r => some r
    | _ => none

/-- Every request in the list carries a non-absolute (root-relative) path. -/
def relOnly (l : List Request) : Prop :=
  ∀ r ∈ l, isAbsolute r.path = false

example : splitPath "sub/f2.txt" = ["sub", "f2.txt"] := rfl
example : relpath "/src/sub/f2.txt" "/src" = "sub/f2.txt" := rfl
example : relpath "/src" "/src" = "." := rfl
example : pjoin "/src" "f1.txt" = "/src/f1.txt" := rfl
example :
    (handleRequest (FSNode.dir FSEntries.nil) ⟨"makedir", "d", none⟩).1 =
      FSNode.dir (FSEntries.cons "d" (FSNode.dir FSEntries.nil) FSEntries.nil) := rfl
example : getDirStructure (FSNode.dir FSEntries.nil) = FSNode.dir FSEntries.nil := rfl
example : strStartsWith "/ab" "/a" = true := rfl

/-- Whether a source effect is a request sent over the channel. -/
def isRpcEff : SourceEffect → Bool
  | SourceEffect.rpc _ => true
  | _ => false

/-- Whether a source effect is a watch deregistration. -/
def isUnwatchEff : SourceEffect → Bool
  | SourceEffect.unwatchdir _ => true
  | _ => false

/-- A valid entry name as the §6 filesystem capability produces them: a
nonempty bare name without a path separator. -/
def validSegment (s : String) : Bool :=
  decide (s ≠ "") && !(s.data.contains '/')

mutual
/-- All entry names in a tree are valid bare names. -/
def wfNames : FSNode → Bool
  | .file _ => true
  | .dir es => wfNamesEntries es

/-- Entry-list part of `wfNames`. -/
def wfNamesEntries : FSEntries → Bool
  | .nil => true
  | .cons k v rest => validSegment k && wfNames v && wfNamesEntries rest
end

mutual
/-- All keys in a snapshot, at every nesting level, contain no slash. -/
def keysNoSep : FSNode → Bool
  | .file _ => true
  | .dir es => keysNoSepEntries es

/-- Entry-list part of `keysNoSep`. -/
def keysNoSepEntries : FSEntries → Bool
  | .nil => true
  | .cons k v rest => !(k.data.contains '/') && keysNoSep v && keysNoSepEntries rest
end

/-- Source tree of the reconciliation scenario of §8: `f1.txt="hello"` and
`sub/f2.txt="world"` under the replication root. -/
def c2Src : FSNode :=
  .dir (.cons "f1.txt" (.file "hello")
    (.cons "sub" (.dir (.cons "f2.txt" (.file "world") .nil)) .nil))

/-- Target snapshot of the reconciliation scenario of §8: `f1.txt="old"`
and `extra.txt="gone"`. -/
def c2Snap : FSNode :=
  .dir (.cons "f1.txt" (.file "old") (.cons "extra.txt" (.file "gone") .nil))

/-- Mutation commands startup reconciliation issues in the §8 scenario:
the `sync_target_with_source` pass followed by the `remove_excess_items`
pass, at root `/src`. -/
def c2Mutations : List Request :=
  (syncTargetWithSource "/src" "/src" c2Src c2Snap).1 ++
    (removeExcessItems "/src" "/src" c2Src c2Snap).1

/-- Source tree with one nested file, the failing input for idempotent
convergence: `sub/f2.txt="world"`. -/
def c1Src : FSNode :=
  .dir (.cons "sub" (.dir (.cons "f2.txt" (.file "world") .nil)) .nil)

/-- Mutation commands one run of startup reconciliation issues for `c1Src`
against a given target snapshot. -/
def c1Recon (snap : FSNode) : List Request :=
  (syncTargetWithSource "/src" "/src" c1Src snap).1 ++
    (removeExcessItems "/src" "/src" c1Src snap).1

/-- Requests issued by the initial watch-and-populate pass over `c1Src`. -/
def c1Pop : List Request :=
  rpcReqs (syncAndWatchDirs "/src" "/src" c1Src)

/-- Target tree after the full first run against an empty target: startup
reconciliation followed by initial population, all applied by the target
interpreter. -/
def c1Target1 : FSNode :=
  applyRequests (FSNode.dir FSEntries.nil)
    (c1Recon (getDirStructure (FSNode.dir FSEntries.nil)) ++ c1Pop)

/-! Helper lemmas about the tree operations. -/

theorem lookupEntry_setEntry_self : ∀ (es : FSEntries) (k : String) (v : FSNode),
    lookupEntry (setEntry es k v) k = some v
  | FSEntries.nil, k, v => by simp [setEntry, lookupEntry]
  | FSEntries.cons k' w rest, k, v => by
    by_cases h : k' = k <;>
      simp [setEntry, lookupEntry, h, lookupEntry_setEntry_self rest k v]

theorem resolve_setNode_self (p : List String) : ∀ (st v : FSNode),
    resolve (setNode st p v) p = some v := by
  induction p with
  | nil => intro st v; simp [setNode, resolve]
  | cons k rest ih =>
    intro st v
    cases st with
    | file c => simp [setNode, resolve, lookupEntry, ih]
    | dir es =>
      cases h : lookupEntry es k with
      | some child => simp [setNode, resolve, h, lookupEntry_setEntry_self, ih]
      | none => simp [setNode, resolve, h, lookupEntry_setEntry_self, ih]

theorem resolve_append (p q : List String) : ∀ n : FSNode,
    resolve n (p ++ q) = (resolve n p).bind fun m => resolve m q := by
  induction p with
  | nil => intro n; simp [resolve]
  | cons k rest ih =>
    intro n
    cases n with
    | file c => simp [resolve]
    | dir es =>
      cases h : lookupEntry es k with
      | some child => simp [resolve, h, ih]
      | none => simp [resolve, h]

mutual
theorem getDirStructure_eq : ∀ n : FSNode, getDirStructure n = n
  | FSNode.file _ => rfl
  | FSNode.dir es => congrArg FSNode.dir (getDirEntries_eq es)

theorem getDirEntries_eq : ∀ es : FSEntries, getDirEntries es = es
  | FSEntries.nil => rfl
  | FSEntries.cons k v rest => by
    show FSEntries.cons k (getDirStructure v) (getDirEntries rest) = FSEntries.cons k v rest
    rw [getDirStructure_eq v, getDirEntries_eq rest]
end

mutual
theorem keysNoSep_of_wfNames : ∀ n : FSNode, wfNames n = true → keysNoSep n = true
  | FSNode.file _, _ => rfl
  | FSNode.dir es, h => keysNoSepEntries_of_wfNamesEntries es h

theorem keysNoSepEntries_of_wfNamesEntries :
    ∀ es : FSEntries, wfNamesEntries es = true → keysNoSepEntries es = true
  | FSEntries.nil, _ => rfl
  | FSEntries.cons k v rest, h => by
    have h' : (validSegment k && wfNames v && wfNamesEntries rest) = true := h
    simp only [Bool.and_eq_true] at h'
    obtain ⟨⟨hk, hv⟩, hr⟩ := h'
    show (!(k.data.contains '/') && keysNoSep v && keysNoSepEntries rest) = true
    simp only [Bool.and_eq_true]
    refine ⟨⟨?_, keysNoSep_of_wfNames v hv⟩, keysNoSepEntries_of_wfNamesEntries rest hr⟩
    have hk' : (decide (k ≠ "") && !(k.data.contains '/')) = true := hk
    exact (Bool.and_eq_true .. ▸ hk').2
end

/-! Theorems settling the claims. -/

/-- Claim C1 (code bug): idempotent convergence fails for nested trees.
After a complete first run against an initially empty target (startup
reconciliation followed by initial population), the target tree equals the
source tree exactly, so the second run's snapshot matches the source
file-for-file; yet a second startup reconciliation still issues a
`writefile` for the nested file `sub/f2.txt` whose snapshot content equals
its source content, because `sync_target_with_source` looks up the
root-relative path in a snapshot level keyed by bare names. -/
theorem c1_nested_resync_not_idempotent :
    c1Target1 = c1Src ∧
    c1Recon (getDirStructure c1Target1) =
      [⟨"writefile", "sub/f2.txt", some "world"⟩] :=
  ⟨rfl, rfl⟩

/-- Claim C2 (counterexample): in the §8 scenario the reconciler also issues
the defensive `remove(sub)`, a command outside the four the claim allows. -/
theorem c2_scenario_issues_defensive_remove :
    (⟨"remove", "sub", none⟩ : Request) ∈ c2Mutations ∧
    (⟨"remove", "sub", none⟩ : Request) ∉
      [(⟨"writefile", "f1.txt", some "hello"⟩ : Request),
       ⟨"makedir", "sub", none⟩,
       ⟨"writefile", "sub/f2.txt", some "world"⟩,
       ⟨"remove", "extra.txt", none⟩] := by
  constructor <;> decide

/-- Claim C2 (amended): the §8 scenario issues exactly
`writefile(f1.txt, "hello")`, `remove(sub)`, `makedir(sub)`,
`writefile(sub/f2.txt, "world")`, `remove(extra.txt)`, in this order under
the fixed listing order of the model; in particular `remove(sub)`
immediately precedes `makedir(sub)`, which precedes the nested write. -/
theorem c2_scenario_commands :
    c2Mutations =
      [⟨"writefile", "f1.txt", some "hello"⟩,
       ⟨"remove", "sub", none⟩,
       ⟨"makedir", "sub", none⟩,
       ⟨"writefile", "sub/f2.txt", some "world"⟩,
       ⟨"remove", "extra.txt", none⟩] := rfl

/-- Claim C3 (counterexample): a request outside the fixed vocabulary does
not make the interpreter reply with status `error`; it falls through the
dispatch and returns no reply at all. -/
theorem c3_unknown_command_no_error_reply :
    ¬ ∃ resp : Response,
      (handleRequest (FSNode.dir FSEntries.nil) ⟨"bogus", "x", none⟩).2.2 = some resp ∧
        resp.status = "error" :=
  fun ⟨_, h, _⟩ => Option.noConfusion h

/-- Claim C3 (amended): for every request whose command is outside the fixed
vocabulary, the interpreter does not crash and leaves the target tree
unchanged, making no filesystem call, but it returns no reply (`None`)
rather than an error reply. -/
theorem c3_unknown_command_silent (st : FSNode) (cmd pathStr : String) (d : Option String)
    (h : cmd ∉ ["makedir", "writefile", "remove", "get_dir_structure"]) :
    handleRequest st ⟨cmd, pathStr, d⟩ = (st, [], none) := by
  simp only [List.mem_cons, List.not_mem_nil, or_false, not_or] at h
  obtain ⟨h1, h2, h3, h4⟩ := h
  simp [handleRequest, h1, h2, h3, h4]

/-- Witness for the amended C3 theorem at a concrete unknown command. -/
theorem c3_unknown_command_silent_witness :
    handleRequest (FSNode.dir FSEntries.nil) ⟨"frobnicate", "x", none⟩ =
      (FSNode.dir FSEntries.nil, [], none) :=
  c3_unknown_command_silent (FSNode.dir FSEntries.nil) "frobnicate" "x" none (by decide)

/-- Claim C4 (counterexample): a successfully applied mutation command does
return no reply: `makedir(d)` on an empty target creates the directory yet
the interpreter's return value is `None`, not a status-carrying reply. -/
theorem c4_mutation_returns_no_reply :
    (handleRequest (FSNode.dir FSEntries.nil) ⟨"makedir", "d", none⟩).1 =
      FSNode.dir (FSEntries.cons "d" (FSNode.dir FSEntries.nil) FSEntries.nil) ∧
    (handleRequest (FSNode.dir FSEntries.nil) ⟨"makedir", "d", none⟩).2.2 = none :=
  ⟨rfl, rfl⟩

/-- Claim C4 (amended): the interpreter returns a reply only for
`get_dir_structure` — status `ok` carrying the snapshot payload; the three
mutation commands are applied but return no reply value. -/
theorem c4_reply_only_for_get_dir_structure (st : FSNode) (cmd pathStr : String)
    (d : Option String) :
    (cmd = "makedir" ∨ cmd = "writefile" ∨ cmd = "remove" →
      (handleRequest st ⟨cmd, pathStr, d⟩).2.2 = none) ∧
    (cmd = "get_dir_structure" →
      (handleRequest st ⟨cmd, pathStr, d⟩).2.2 =
        some ⟨"ok", none, some (getDirStructure st)⟩) := by
  constructor
  · rintro (h | h | h) <;> subst h
    · rfl
    · cases d with
      | none => rfl
      | some c =>
        simp only [handleRequest]
        cases hr : resolve st (splitPath pathStr) with
        | none => rfl
        | some n =>
          cases n with
          | file cur => by_cases hc : cur = c <;> simp [hc]
          | dir es => rfl
    · simp only [handleRequest]
      cases hr : resolve st (splitPath pathStr) with
      | none => rfl
      | some n => cases n <;> rfl
  · rintro h; subst h; rfl

/-- Witness for the C4 theorem at concrete requests on a concrete tree. -/
theorem c4_reply_only_for_get_dir_structure_witness :
    (handleRequest (FSNode.dir FSEntries.nil) ⟨"get_dir_structure", "", none⟩).2.2 =
      some ⟨"ok", none, some (getDirStructure (FSNode.dir FSEntries.nil))⟩ :=
  (c4_reply_only_for_get_dir_structure (FSNode.dir FSEntries.nil)
    "get_dir_structure" "" none).2 rfl

theorem filter_isRpcEff_map_unwatchdir (l : List String) :
    (l.map SourceEffect.unwatchdir).filter isRpcEff = [] := by
  induction l with
  | nil => rfl
  | cons a t ih => simp [isRpcEff, ih]

/-- Claim C5: handling a removal event for path `p` unregisters every
watched directory whose path has `p` as a (literal) prefix and keeps every
other watched directory, performs all deregistrations before the single
request it sends, and sends exactly one request — a `remove` for the
root-relative form of `p`. -/
theorem c5_watch_teardown_on_removal (tree : FSNode) (root p : String)
    (watched : List String) :
    (handleEvent tree root watched ⟨FSEventType.fileOrSubdirRemoved, p⟩).2.2 = true ∧
    (∀ d ∈ watched, strStartsWith d p = true →
      d ∉ (handleEvent tree root watched ⟨FSEventType.fileOrSubdirRemoved, p⟩).1 ∧
      SourceEffect.unwatchdir d ∈
        (handleEvent tree root watched ⟨FSEventType.fileOrSubdirRemoved, p⟩).2.1) ∧
    (∀ d ∈ watched, strStartsWith d p = false →
      d ∈ (handleEvent tree root watched ⟨FSEventType.fileOrSubdirRemoved, p⟩).1) ∧
    ((handleEvent tree root watched ⟨FSEventType.fileOrSubdirRemoved, p⟩).2.1.filter
        isRpcEff) = [SourceEffect.rpc ⟨"remove", relpath p root, none⟩] ∧
    (∀ e ∈ (handleEvent tree root watched
        ⟨FSEventType.fileOrSubdirRemoved, p⟩).2.1.dropLast, isUnwatchEff e = true) ∧
    (handleEvent tree root watched ⟨FSEventType.fileOrSubdirRemoved, p⟩).2.1.getLast? =
      some (SourceEffect.rpc ⟨"remove", relpath p root, none⟩) := by
  have he : handleEvent tree root watched ⟨FSEventType.fileOrSubdirRemoved, p⟩ =
      ((watched.filter fun d => !(strStartsWith d p)),
       ((watched.filter fun d => strStartsWith d p).map SourceEffect.unwatchdir) ++
         [SourceEffect.rpc ⟨"remove", relpath p root, none⟩], true) := rfl
  rw [he]
  refine ⟨rfl, ?_, ?_, ?_, ?_, ?_⟩
  · intro d hd hpre
    refine ⟨by simp [List.mem_filter, hpre], ?_⟩
    exact List.mem_append_left _
      (List.mem_map_of_mem _ (List.mem_filter.mpr ⟨hd, hpre⟩))
  · intro d hd hpre
    exact List.mem_filter.mpr ⟨hd, by simp [hpre]⟩
  · rw [List.filter_append, filter_isRpcEff_map_unwatchdir]
    simp [isRpcEff]
  · intro e hmem
    rw [List.dropLast_concat] at hmem
    rcases List.mem_map.mp hmem with ⟨a, _, rfl⟩
    rfl
  · exact List.getLast?_concat ..

/-- Witness for C5 at the watched set of the claim's example: removing `/a`
with `/a`, `/a/b`, `/a/b/c` watched unregisters the deepest descendant. -/
theorem c5_watch_teardown_on_removal_witness :
    SourceEffect.unwatchdir "/a/b/c" ∈
      (handleEvent (FSNode.dir FSEntries.nil) "/" ["/a", "/a/b", "/a/b/c"]
        ⟨FSEventType.fileOrSubdirRemoved, "/a"⟩).2.1 :=
  ((c5_watch_teardown_on_removal (FSNode.dir FSEntries.nil) "/" "/a"
    ["/a", "/a/b", "/a/b/c"]).2.1 "/a/b/c" (by decide) rfl).2

/-- Claim C6: unwatch matching is by literal string prefix, so removing
`/a` with sibling `/ab` watched also unregisters `/ab`: the whole teardown
at this input unwatches both and empties the watched set. -/
theorem c6_literal_sibling_unwatch :
    handleEvent (FSNode.dir FSEntries.nil) "/" ["/a", "/ab"]
        ⟨FSEventType.fileOrSubdirRemoved, "/a"⟩ =
      ([], [SourceEffect.unwatchdir "/a", SourceEffect.unwatchdir "/ab",
            SourceEffect.rpc ⟨"remove", "a", none⟩], true) := rfl

/-- Claim C7: when the target has a directory at the request path, the
interpreter's `writefile` removes it and writes the file, so the result
holds exactly the new content at that path with nothing left anywhere
below it. -/
theorem c7_writefile_type_change (st : FSNode) (pathStr content : String) (es : FSEntries)
    (hdir : resolve st (splitPath pathStr) = some (FSNode.dir es)) :
    resolve (handleRequest st ⟨"writefile", pathStr, some content⟩).1 (splitPath pathStr) =
        some (FSNode.file content) ∧
    ∀ q, q ≠ [] →
      resolve (handleRequest st ⟨"writefile", pathStr, some content⟩).1
        (splitPath pathStr ++ q) = none := by
  have hstate : (handleRequest st ⟨"writefile", pathStr, some content⟩).1 =
      setNode (removeNode st (splitPath pathStr)) (splitPath pathStr)
        (FSNode.file content) := by
    simp [handleRequest, hdir]
  constructor
  · rw [hstate]; exact resolve_setNode_self ..
  · intro q hq
    rw [hstate, resolve_append, resolve_setNode_self]
    cases q with
    | nil => exact absurd rfl hq
    | cons a q' => rfl

/-- Witness for C7: overwriting the directory `d` (holding `x`) with file
content `new` leaves a file with that content at `d`. -/
theorem c7_writefile_type_change_witness :
    resolve (handleRequest
        (FSNode.dir (FSEntries.cons "d"
          (FSNode.dir (FSEntries.cons "x" (FSNode.file "old") FSEntries.nil))
          FSEntries.nil))
        ⟨"writefile", "d", some "new"⟩).1 (splitPath "d") =
      some (FSNode.file "new") :=
  (c7_writefile_type_change
    (FSNode.dir (FSEntries.cons "d"
      (FSNode.dir (FSEntries.cons "x" (FSNode.file "old") FSEntries.nil))
      FSEntries.nil))
    "d" "new" (FSEntries.cons "x" (FSNode.file "old") FSEntries.nil) rfl).1

/-- Claim C8: a `writefile` whose payload equals the target file's current
content is a complete no-op — no mutating filesystem call is made, the tree
is unchanged, and no reply is returned. -/
theorem c8_writefile_noop (st : FSNode) (pathStr content : String)
    (hfile : resolve st (splitPath pathStr) = some (FSNode.file content)) :
    handleRequest st ⟨"writefile", pathStr, some content⟩ = (st, [], none) := by
  simp [handleRequest, hfile]

/-- Witness for C8 at a concrete one-file tree. -/
theorem c8_writefile_noop_witness :
    handleRequest (FSNode.dir (FSEntries.cons "a.txt" (FSNode.file "same") FSEntries.nil))
        ⟨"writefile", "a.txt", some "same"⟩ =
      (FSNode.dir (FSEntries.cons "a.txt" (FSNode.file "same") FSEntries.nil), [], none) :=
  c8_writefile_noop _ "a.txt" "same" rfl

/-- Claim C10: snapshot keys are the bare entry names — for a tree whose
entry names are valid bare names, every key at every level of the
`get_dir_structure` result contains no separator, and the snapshot
reproduces the tree level by level, so a subdirectory's entries appear only
inside that subdirectory's nested mapping. -/
theorem c10_snapshot_keys_bare (t : FSNode) (h : wfNames t = true) :
    keysNoSep (getDirStructure t) = true ∧ getDirStructure t = t :=
  ⟨by rw [getDirStructure_eq]; exact keysNoSep_of_wfNames t h, getDirStructure_eq t⟩

/-- Witness for C10 at the nested two-level tree `sub/f2.txt`. -/
theorem c10_snapshot_keys_bare_witness :
    keysNoSep (getDirStructure c1Src) = true ∧ getDirStructure c1Src = c1Src :=
  c10_snapshot_keys_bare c1Src (by decide)

/-! Lemmas showing that relative-path computation never yields an absolute
path, the backbone of claim C9. -/

theorem splitCharsOn_ne_nil (c : Char) (l : List Char) : splitCharsOn c l ≠ [] := by
  cases l with
  | nil => simp [splitCharsOn]
  | cons a t =>
    simp only [splitCharsOn]
    cases h : splitCharsOn c t with
    | nil => simp
    | cons s ss => by_cases hac : a = c <;> simp [hac]

theorem not_mem_of_mem_splitCharsOn (c : Char) :
    ∀ (l : List Char) (seg : List Char), seg ∈ splitCharsOn c l → c ∉ seg := by
  intro l
  induction l with
  | nil =>
    intro seg h
    simp [splitCharsOn] at h
    subst h; simp
  | cons a t ih =>
    intro seg h
    simp only [splitCharsOn] at h
    cases hs : splitCharsOn c t with
    | nil => exact absurd hs (splitCharsOn_ne_nil c t)
    | cons s ss =>
      rw [hs] at h
      have hs' : s ∈ splitCharsOn c t := by rw [hs]; exact List.mem_cons_self ..
      by_cases hac : a = c
      · simp only [hac, if_pos rfl] at h
        rcases List.mem_cons.mp h with h | h
        · subst h; simp
        · exact ih seg (hs ▸ h)
      · simp only [if_neg hac] at h
        rcases List.mem_cons.mp h with h | h
        · subst h
          intro hc
          rcases List.mem_cons.mp hc with hc | hc
          · exact hac hc.symm
          · exact ih s hs' hc
        · exact ih seg (hs ▸ List.mem_cons_of_mem _ h)

theorem mem_splitPath_head (s seg : String) (h : seg ∈ splitPath s) :
    ∃ c t, seg.data = c :: t ∧ c ≠ '/' := by
  obtain ⟨hmap, hne⟩ := List.mem_filter.mp h
  rcases List.mem_map.mp hmap with ⟨l, hl, hseg⟩
  have hdata : seg.data = l := by rw [← hseg]
  have hslash : '/' ∉ l := not_mem_of_mem_splitCharsOn '/' s.data l hl
  have hne' : seg ≠ "" := of_decide_eq_true hne
  cases hld : l with
  | nil =>
    exfalso
    apply hne'
    have : seg.data = [] := by rw [hdata, hld]
    exact String.ext this
  | cons c t =>
    refine ⟨c, t, by rw [hdata, hld], ?_⟩
    intro hc
    exact hslash (hld ▸ (hc ▸ List.mem_cons_self ..))

theorem isAbsolute_joinPath (segs : List String)
    (h : ∀ seg ∈ segs, ∃ c t, seg.data = c :: t ∧ c ≠ '/') :
    isAbsolute (joinPath segs) = false := by
  cases segs with
  | nil => rfl
  | cons a rest =>
    obtain ⟨c, t, hdata, hc⟩ := h a (List.mem_cons_self ..)
    cases rest with
    | nil => simp [joinPath, isAbsolute, hdata, hc]
    | cons b rest' => simp [joinPath, isAbsolute, String.data_append, hdata, hc]

theorem mem_relSegs_head (path start seg : String) (h : seg ∈ relSegs path start) :
    ∃ c t, seg.data = c :: t ∧ c ≠ '/' := by
  rcases List.mem_append.mp h with h | h
  · have heq : seg = ".." := List.eq_of_mem_replicate h
    subst heq
    exact ⟨'.', ['.'], rfl, by decide⟩
  · exact mem_splitPath_head path seg (List.mem_of_mem_drop h)

theorem relpath_not_absolute (path start : String) :
    isAbsolute (relpath path start) = false := by
  unfold relpath
  cases hs : relSegs path start with
  | nil => rfl
  | cons a rest =>
    exact isAbsolute_joinPath (a :: rest) fun seg hseg =>
      mem_relSegs_head path start seg (hs ▸ hseg)

@[simp] theorem isAbsolute_empty : isAbsolute "" = false := rfl

@[simp] theorem relOnly_nil : relOnly [] := by simp [relOnly]

@[simp] theorem relOnly_cons (r : Request) (l : List Request) :
    relOnly (r :: l) ↔ isAbsolute r.path = false ∧ relOnly l := by
  simp [relOnly]

@[simp] theorem relOnly_append (a b : List Request) :
    relOnly (a ++ b) ↔ relOnly a ∧ relOnly b := by
  simp [relOnly, or_imp, forall_and]

@[simp] theorem rpcReqs_nil : rpcReqs [] = [] := rfl

@[simp] theorem rpcReqs_cons_watchdir (p : String) (l : List SourceEffect) :
    rpcReqs (SourceEffect.watchdir p :: l) = rpcReqs l := rfl

@[simp] theorem rpcReqs_cons_unwatchdir (p : String) (l : List SourceEffect) :
    rpcReqs (SourceEffect.unwatchdir p :: l) = rpcReqs l := rfl

@[simp] theorem rpcReqs_cons_rpc (r : Request) (l : List SourceEffect) :
    rpcReqs (SourceEffect.rpc r :: l) = r :: rpcReqs l := rfl

@[simp] theorem rpcReqs_append (a b : List SourceEffect) :
    rpcReqs (a ++ b) = rpcReqs a ++ rpcReqs b :=
  List.filterMap_append ..

@[simp] theorem rpcReqs_map_unwatchdir (l : List String) :
    rpcReqs (l.map SourceEffect.unwatchdir) = [] := by
  induction l with
  | nil => rfl
  | cons a t ih => simp [ih]

mutual
theorem syncTWS_paths (root srcDir : String) (n snap : FSNode) :
    relOnly (syncTargetWithSource root srcDir n snap).1 := by
  cases n with
  | file c => simp [syncTargetWithSource]
  | dir es => exact syncItems_paths root srcDir es snap

theorem syncItems_paths (root srcDir : String) (items : FSEntries) (snap : FSNode) :
    relOnly (syncItems root srcDir items snap).1 := by
  cases items with
  | nil => simp [syncItems]
  | cons name child rest =>
    cases child with
    | dir ces =>
      cases snap with
      | file s =>
        simp only [syncItems]
        split <;> simp [relpath_not_absolute]
      | dir ses =>
        have h1 := syncTWS_paths root (pjoin srcDir name) (FSNode.dir ces)
          (dsGet ses (relpath (pjoin srcDir name) root))
        have h2 := syncItems_paths root srcDir rest (FSNode.dir ses)
        simp only [syncItems]
        split <;> split <;> simp_all [relpath_not_absolute]
    | file c =>
      cases snap with
      | file s =>
        have h2 := syncItems_paths root srcDir rest (FSNode.file s)
        simp only [syncItems]
        split <;> simp_all [relpath_not_absolute]
      | dir ses =>
        have h2 := syncItems_paths root srcDir rest (FSNode.dir ses)
        simp only [syncItems]
        split <;> (try split) <;> simp_all [relpath_not_absolute]
end

mutual
theorem removeExcessItems_paths (root srcDir : String) (srcRoot snap : FSNode) :
    relOnly (removeExcessItems root srcDir srcRoot snap).1 := by
  cases snap with
  | file c => simp [removeExcessItems]
  | dir ses => exact reiItems_paths root srcDir srcRoot ses

theorem reiItems_paths (root srcDir : String) (srcRoot : FSNode) (items : FSEntries) :
    relOnly (reiItems root srcDir srcRoot items).1 := by
  cases items with
  | nil => simp [reiItems]
  | cons key content rest =>
    have h2 := reiItems_paths root srcDir srcRoot rest
    simp only [reiItems]
    split
    · simp_all [relpath_not_absolute]
    · cases content with
      | file c => exact h2
      | dir ces =>
        have h1 := removeExcessItems_paths root (pjoin srcDir key) srcRoot (FSNode.dir ces)
        split <;> (try split) <;> simp_all
end

mutual
theorem syncAndWatchDirs_paths (root absDir : String) (n : FSNode) :
    relOnly (rpcReqs (syncAndWatchDirs root absDir n)) := by
  cases n with
  | file c =>
    simp only [syncAndWatchDirs]
    split <;> simp [relpath_not_absolute]
  | dir es =>
    have h1 := sawItems_paths root absDir es
    simp only [syncAndWatchDirs]
    split <;> simp_all [relpath_not_absolute]

theorem sawItems_paths (root absDir : String) (items : FSEntries) :
    relOnly (rpcReqs (sawItems root absDir items)) := by
  cases items with
  | nil => simp [sawItems]
  | cons name child rest =>
    have h2 := sawItems_paths root absDir rest
    cases child with
    | dir ces =>
      have h1 := syncAndWatchDirs_paths root (pjoin absDir name) (FSNode.dir ces)
      simp only [sawItems]
      simp_all [relpath_not_absolute]
    | file c =>
      simp only [sawItems]
      simp_all [relpath_not_absolute]
end

theorem handleEvent_paths (tree : FSNode) (root : String) (watched : List String)
    (ev : FSEvent) :
    relOnly (rpcReqs (handleEvent tree root watched ev).2.1) := by
  rcases ev with ⟨ety, p⟩
  cases ety with
  | fileOrSubdirAdded =>
    simp only [handleEvent]
    cases hres : resolve tree (splitPath (relpath p root)) with
    | none => simp
    | some nd =>
      cases nd with
      | dir es =>
        have h1 := syncAndWatchDirs_paths root p (FSNode.dir es)
        simp_all [relpath_not_absolute]
      | file c => simp [relpath_not_absolute]
  | fileOrSubdirRemoved =>
    simp [handleEvent, unwatchPrefixDirs, relpath_not_absolute]
  | fileModified =>
    simp only [handleEvent]
    cases hres : resolve tree (splitPath (relpath p root)) with
    | none => simp
    | some nd =>
      cases nd with
      | dir es => simp
      | file c => simp [relpath_not_absolute]

theorem initializeTargetRequests_paths (root : String) (src snap : FSNode) :
    relOnly (initializeTargetRequests root src snap).1 := by
  have h1 := syncTWS_paths root root src snap
  have h2 := removeExcessItems_paths root root src snap
  simp only [initializeTargetRequests]
  split <;> simp_all

/-- Claim C9: only root-relative paths cross the channel — every request
issued during startup reconciliation carries a non-absolute path and the
leading `get_dir_structure` request carries the empty path; every request
of the initial watch-and-populate pass and every request produced by a
change-notification event likewise carries a non-absolute path. -/
theorem c9_only_relative_paths (root absDir : String) (src snap n tree : FSNode)
    (watched : List String) (ev : FSEvent) :
    relOnly (initializeTargetRequests root src snap).1 ∧
    (initializeTargetRequests root src snap).1.head? =
      some ⟨"get_dir_structure", "", none⟩ ∧
    relOnly (rpcReqs (syncAndWatchDirs root absDir n)) ∧
    relOnly (rpcReqs (handleEvent tree root watched ev).2.1) :=
  ⟨initializeTargetRequests_paths root src snap,
   by simp only [initializeTargetRequests]; split <;> rfl,
   syncAndWatchDirs_paths root absDir n,
   handleEvent_paths tree root watched ev⟩

/-- Witness for C9: the nested write of the §8 scenario carries the
root-relative path `sub/f2.txt`, which is not absolute. -/
theorem c9_only_relative_paths_witness :
    isAbsolute (Request.mk "writefile" "sub/f2.txt" (some "world")).path = false :=
  (c9_only_relative_paths "/src" "/src" c2Src c2Snap c2Src c2Src []
      ⟨FSEventType.fileModified, "/src/f1.txt"⟩).1
    ⟨"writefile", "sub/f2.txt", some "world"⟩ (by decide)

end Replicator
